import Mathlib

set_option maxRecDepth 8000

/-
Verification of the text-normalization pipeline of the PDF-to-text converter.

The program (server file, function extractTextFromPDF plus its helper
removeRepeatedLines) assembles the per-page fragment lists into one string
(fragments joined by single spaces, pages terminated by "\n\n") and then
applies, in order:
  step 1  replace of `\n\s*\n` by "\n\n" (global), then String.trim;
  step 2  replace of `\b(?:[A-Za-zÁÉÍÓÚÑa-záéíóú]\s+){1,}[A-Za-zÁÉÍÓÚÑa-záéíóú]\b`
          by the match with all whitespace removed (letter-run joining);
  step 3  replace of `\s{2,}` by a single space;
  step 4  replace of the pattern  hyphen `\s*\n\s*`  by the empty string, then
          replace of `(\w)-\s+(\w)` by `$1$2` (hyphenation repair);
  step 5  removeRepeatedLines: split on '\n', trim lines, drop empty lines,
          collapse consecutive duplicates, then drop every line whose total
          frequency in the pre-dedup list exceeds 2 and whose length is < 80,
          re-joining the survivors with '\n'.

The JavaScript regexes are embedded as explicit left-to-right scanners whose
greedy/backtracking behaviour is reproduced exactly; `\s`, `\w` and `\b` use
their exact JavaScript (non-unicode-flag) semantics.  Strings are modelled as
`List Char` with `String`-level wrappers for the statements.
-/

namespace PdfParsing

/-- Characters matched by the JavaScript regex class `\s`
(whitespace and line terminators; also the set trimmed by String.trim). -/
def isWs (c : Char) : Bool :=
  let n := c.toNat
  decide (n = 32 ∨ n = 9 ∨ n = 10 ∨ n = 13 ∨ n = 11 ∨ n = 12 ∨ n = 160 ∨ n = 0x1680 ∨
    (0x2000 ≤ n ∧ n ≤ 0x200a) ∨ n = 0x2028 ∨ n = 0x2029 ∨ n = 0x202f ∨ n = 0x205f ∨
    n = 0x3000 ∨ n = 0xfeff)

/-- Characters matched by the JavaScript regex class `\w`: ASCII letters,
digits and underscore (this is also the set against which `\b` is decided). -/
def isWordChar (c : Char) : Bool :=
  let n := c.toNat
  decide ((65 ≤ n ∧ n ≤ 90) ∨ (97 ≤ n ∧ n ≤ 122) ∨ (48 ≤ n ∧ n ≤ 57) ∨ n = 95)

/-- Characters of the class `[A-Za-zÁÉÍÓÚÑa-záéíóú]` of the letter-run regex
(line 91 of the source): ASCII letters, the uppercase diacritics Á É Í Ó Ú Ñ
(0xC1 0xC9 0xCD 0xD3 0xDA 0xD1) and the lowercase diacritics á é í ó ú
(0xE1 0xE9 0xED 0xF3 0xFA).  Lowercase ñ (0xF1) does not occur in the class. -/
def isClassLetter (c : Char) : Bool :=
  let n := c.toNat
  decide ((65 ≤ n ∧ n ≤ 90) ∨ (97 ≤ n ∧ n ≤ 122) ∨
    n = 0xC1 ∨ n = 0xC9 ∨ n = 0xCD ∨ n = 0xD3 ∨ n = 0xDA ∨ n = 0xD1 ∨
    n = 0xE1 ∨ n = 0xE9 ∨ n = 0xED ∨ n = 0xF3 ∨ n = 0xFA)

/-- Remove the maximal whitespace suffix (the right half of String.trim). -/
def rtrim : List Char → List Char
  | [] => []
  | c :: rest => if rtrim rest = [] ∧ isWs c = true then [] else c :: rtrim rest

/-- JavaScript String.prototype.trim: strip whitespace from both ends. -/
def trimList (l : List Char) : List Char := rtrim (l.dropWhile isWs)

/-- JavaScript `text.split('\n')` on a character list (splits at every
newline; the empty string splits to one empty segment). -/
def splitNl : List Char → List (List Char)
  | [] => [[]]
  | c :: rest =>
    if c = '\n' then [] :: splitNl rest
    else match splitNl rest with
      | s :: ss => (c :: s) :: ss
      | [] => [[c]]

/-- JavaScript `lines.join('\n')`. -/
def joinNl : List (List Char) → List Char
  | [] => []
  | [l] => l
  | l :: ls => l ++ '\n' :: joinNl ls

/-- Line 41 of the source: split on newlines, trim every line, drop the
lines that are empty after trimming. -/
def originalLines (t : List Char) : List (List Char) :=
  ((splitNl t).map trimList).filter (fun line => decide (line ≠ []))

/-- Loop body of lines 44-49: push the line unless it equals the last line
already pushed (an empty accumulator always pushes). -/
def dedupStep (acc : List (List Char)) (line : List Char) : List (List Char) :=
  if acc.getLast? = some line then acc else acc ++ [line]

/-- Lines 44-49: collapse immediately consecutive duplicate lines. -/
def dedupedLines (ls : List (List Char)) : List (List Char) := ls.foldl dedupStep []

/-- Values that end up stored in the frequency object of line 52: a numeric
count, or the non-numeric string produced once a read hit a member inherited
from Object.prototype (`(truthyFunction || 0) + 1` concatenates, and every
later `(string || 0) + 1` keeps concatenating, so the value stays a
non-numeric string). -/
inductive JSVal
  | num : Nat → JSVal
  | str : JSVal

/-- Property names that the plain object literal `{}` of line 52 inherits
from Object.prototype (ES2023 including Annex B): reading them on `{}`
yields a truthy function — or, for __proto__, the prototype object — rather
than undefined. -/
def protoKeys : List (List Char) :=
  ["constructor", "hasOwnProperty", "isPrototypeOf", "propertyIsEnumerable",
   "toLocaleString", "toString", "valueOf", "__proto__", "__defineGetter__",
   "__defineSetter__", "__lookupGetter__", "__lookupSetter__"].map String.data

def isProtoKey (k : List Char) : Bool := decide (k ∈ protoKeys)

/-- The own properties of the frequency object, as an association list. -/
def getOwn : List (List Char × JSVal) → List Char → Option JSVal
  | [], _ => none
  | (k0, v) :: rest, k => if k0 = k then some v else getOwn rest k

def updateOwn : List (List Char × JSVal) → List Char → JSVal → List (List Char × JSVal)
  | [], k, v => [(k, v)]
  | (k0, v0) :: rest, k, v =>
    if k0 = k then (k0, v) :: rest else (k0, v0) :: updateOwn rest k v

/-- A property write on the object: an assignment to "__proto__" is
intercepted by the inherited accessor and, the value being a number or a
string rather than an object, is silently dropped — no own property is ever
created for that key; every other key is stored as an own data property. -/
def setOwn (m : List (List Char × JSVal)) (k : List Char) (v : JSVal) :
    List (List Char × JSVal) :=
  if k = "__proto__".data then m else updateOwn m k v

/-- Line 54, `frequency[line] = (frequency[line] || 0) + 1`, with JavaScript
object semantics: an absent plain key reads as undefined and the count
starts at 1; a numeric count increments; but a key found on Object.prototype
first reads as a truthy function or object, so `+ 1` string-concatenates and
the value is a non-numeric string from then on. -/
def bump (m : List (List Char × JSVal)) (k : List Char) : List (List Char × JSVal) :=
  match getOwn m k with
  | some (JSVal.num n) => setOwn m k (JSVal.num (n + 1))
  | some JSVal.str => setOwn m k JSVal.str
  | none => if isProtoKey k = true then setOwn m k JSVal.str else setOwn m k (JSVal.num 1)

/-- Lines 52-55: the frequency table of the pre-deduplication line list. -/
def frequency (ls : List (List Char)) : List (List Char × JSVal) := ls.foldl bump []

/-- Line 59, `frequency[line] > 2`: a numeric count compares as a number; a
non-numeric string converts to NaN, and an inherited function/object or
undefined likewise yields NaN, so for all of those the comparison is false. -/
def freqGt2 (m : List (List Char × JSVal)) (k : List Char) : Bool :=
  match getOwn m k with
  | some (JSVal.num n) => decide (2 < n)
  | some JSVal.str => false
  | none => false

/-- JavaScript String.length: the number of UTF-16 code units, where a
character beyond the basic multilingual plane counts twice. -/
def utf16Len : List Char → Nat
  | [] => 0
  | c :: rest => (if c.toNat < 0x10000 then 1 else 2) + utf16Len rest

/-- Lines 58-63: keep a deduped line unless `frequency[line] > 2` holds and
its length in UTF-16 code units is less than 80. -/
def filteredLines (t : List Char) : List (List Char) :=
  (dedupedLines (originalLines t)).filter
    (fun line =>
      decide (¬(freqGt2 (frequency (originalLines t)) line = true ∧ utf16Len line < 80)))

/-- Lines 39-66: the source function removeRepeatedLines. -/
def removeRepeatedLines (t : List Char) : List Char := joinNl (filteredLines t)

/-- Index of the last newline of a list, if any. -/
def lastNlIdx : List Char → Option Nat
  | [] => none
  | c :: rest =>
    match lastNlIdx rest with
    | some i => some (i + 1)
    | none => if c = '\n' then some 0 else none

/-- Line 86, global replace of `\n\s*\n` by "\n\n": at a newline the greedy
`\s*` backtracks until the literal final `\n` can match, so the match extends
to the last newline of the following whitespace run (no match when that run
has no newline); scanning resumes after the match.  Fuel is the input length,
which suffices since every step consumes at least one character. -/
def collapseNlGo : Nat → List Char → List Char
  | 0, l => l
  | _ + 1, [] => []
  | fuel + 1, c :: rest =>
    if c = '\n' then
      match lastNlIdx (rest.takeWhile isWs) with
      | some i => '\n' :: '\n' :: collapseNlGo fuel (rest.drop (i + 1))
      | none => c :: collapseNlGo fuel rest
    else c :: collapseNlGo fuel rest

def collapseNl (l : List Char) : List Char := collapseNlGo l.length l

/-- Line 96, global replace of `\s{2,}` by a single space: a maximal run of
two or more whitespace characters becomes one space; a lone whitespace
character (for instance a single newline) is not touched. -/
def collapseWsGo : Nat → List Char → List Char
  | 0, l => l
  | _ + 1, [] => []
  | fuel + 1, c :: rest =>
    if isWs c = true then
      match rest.takeWhile isWs with
      | [] => c :: collapseWsGo fuel rest
      | w => ' ' :: collapseWsGo fuel (rest.drop w.length)
    else c :: collapseWsGo fuel rest

def collapseWs (l : List Char) : List Char := collapseWsGo l.length l

/-- Line 100, global replace of the pattern  hyphen `\s*\n\s*`  by the empty
string: after a hyphen, the pattern consumes the whole following whitespace
run provided that run contains a newline (the first `\s*` backtracks to the
last newline of the run and the trailing greedy `\s*` then consumes the
remainder).  No word character on either side is required. -/
def dehyphLBGo : Nat → List Char → List Char
  | 0, l => l
  | _ + 1, [] => []
  | fuel + 1, c :: rest =>
    if c = '-' then
      let w := rest.takeWhile isWs
      if w.contains '\n' then dehyphLBGo fuel (rest.drop w.length)
      else c :: dehyphLBGo fuel rest
    else c :: dehyphLBGo fuel rest

def dehyphLB (l : List Char) : List Char := dehyphLBGo l.length l

/-- The `\s+(\w)` tail of the regex on line 102: a nonempty whitespace run
followed by a word character. -/
def wsWordMatch (l : List Char) : Option (Char × List Char) :=
  let w := l.takeWhile isWs
  if w = [] then none
  else match l.drop w.length with
    | b :: r => if isWordChar b = true then some (b, r) else none
    | [] => none

/-- Line 102, global replace of `(\w)-\s+(\w)` by `$1$2`: a word character
directly before the hyphen and a word character after the whitespace run are
both required; scanning resumes after the second word character. -/
def dehyphInlineGo : Nat → List Char → List Char
  | 0, l => l
  | _ + 1, [] => []
  | _ + 1, [c] => [c]
  | fuel + 1, a :: b :: rest =>
    if b = '-' ∧ isWordChar a = true then
      match wsWordMatch rest with
      | some (w, rest2) => a :: w :: dehyphInlineGo fuel rest2
      | none => a :: dehyphInlineGo fuel (b :: rest)
    else a :: dehyphInlineGo fuel (b :: rest)

def dehyphInline (l : List Char) : List Char := dehyphInlineGo l.length l

/-- Lines 100-102 composed: the hyphenation-repair stage of the pipeline. -/
def dehyphenate (l : List Char) : List Char := dehyphInline (dehyphLB l)

/-- Whether a text contains the full pattern of line 102 anywhere: a word
character, a hyphen, a nonempty whitespace run, then a word character. -/
def hasWHWW : List Char → Bool
  | [] => false
  | [_] => false
  | a :: b :: rest =>
    if b = '-' ∧ isWordChar a = true ∧ (wsWordMatch rest).isSome = true then true
    else hasWHWW (b :: rest)

/-- Parse the continuation of a candidate letter run: the maximal list of
(whitespace run, class letter) pairs that the greedy group
`(?:[A-Za-zÁÉÍÓÚÑa-záéíóú]\s+){1,}` followed by a final class letter can
consume after the starting letter.  Each `\s+` is necessarily the maximal
whitespace run, because the character after it must be a letter. -/
def parseChainGo : Nat → List Char → List (List Char × Char) × List Char
  | 0, l => ([], l)
  | fuel + 1, l =>
    let w := l.takeWhile isWs
    if w = [] then ([], l)
    else match l.drop w.length with
      | c :: rest2 =>
        if isClassLetter c = true then
          let (ps, r) := parseChainGo fuel rest2
          ((w, c) :: ps, r)
        else ([], l)
      | [] => ([], l)

/-- Reattach unconsumed chain elements in front of the rest of the input. -/
def rebuild (ps : List (List Char × Char)) (r : List Char) : List Char :=
  ps.foldr (fun p acc => p.1 ++ p.2 :: acc) r

/-- Regex backtracking over the iteration count of the greedy group: the
final chain letter having failed its trailing `\b`, drop the last chain
element and take the longest remaining nonempty prefix whose final letter is
a word character — only such a letter, being followed by whitespace, can
satisfy the trailing `\b` of the pattern. -/
def btSplit :
    List (List Char × Char) → Option (List (List Char × Char) × List (List Char × Char))
  | [] => none
  | [_] => none
  | x :: rest =>
    match btSplit rest with
    | some (p, s) => some (x :: p, s)
    | none => if isWordChar x.2 = true then some ([x], rest) else none

/-- The last letter of a chain (the starting letter when the chain is empty). -/
def lastLetter (c : Char) (exts : List (List Char × Char)) : Char :=
  exts.foldl (fun _ p => p.2) c

/-- Whether the character left of the current position is a word character
(the start of the input counts as a non-word position for `\b`). -/
def prevWord : Option Char → Bool
  | none => false
  | some c => isWordChar c

/-- Whether the first character of the rest is a word character (the end of
the input counts as a non-word position for `\b`). -/
def headWord : List Char → Bool
  | [] => false
  | c :: _ => isWordChar c

/-- Lines 90-93, global replace of
`\b(?:[A-Za-zÁÉÍÓÚÑa-záéíóú]\s+){1,}[A-Za-zÁÉÍÓÚÑa-záéíóú]\b` by the match
with all its whitespace removed (the callback applies a replace of `\s+` by
the empty string to the match).  Left-to-right scan carrying the previous
character for `\b`: a match can only start at a class letter sitting on a
word boundary; the greedy chain is parsed; the final chain letter must sit on
a word boundary against what follows, otherwise the engine backtracks to the
longest shorter chain whose final letter is a word character (then followed
by whitespace, where `\b` holds); on success the letters are emitted without
the whitespace and scanning resumes at the first unconsumed character. -/
def joinRunsGo : Nat → Option Char → List Char → List Char
  | 0, _, l => l
  | _ + 1, _, [] => []
  | fuel + 1, prev, c :: rest =>
    if isClassLetter c = true ∧ prevWord prev ≠ isWordChar c then
      match parseChainGo rest.length rest with
      | ([], _) => c :: joinRunsGo fuel (some c) rest
      | (e :: es, r) =>
        let cM := lastLetter c (e :: es)
        if isWordChar cM ≠ headWord r then
          c :: (e :: es).map Prod.snd ++ joinRunsGo fuel (some cM) r
        else
          match btSplit (e :: es) with
          | some (p, s) =>
            let ck := lastLetter c p
            c :: p.map Prod.snd ++ joinRunsGo fuel (some ck) (rebuild s r)
          | none => c :: joinRunsGo fuel (some c) rest
    else c :: joinRunsGo fuel (some c) rest

def joinRuns (l : List Char) : List Char := joinRunsGo l.length none l

/-- Line 81: the fragments of one page joined by single spaces. -/
def joinSpace : List (List Char) → List Char
  | [] => []
  | [f] => f
  | f :: fs => f ++ ' ' :: joinSpace fs

/-- Lines 76-83: `fullText += pageText + '\n\n'` over the pages in order. -/
def assemble (pages : List (List (List Char))) : List Char :=
  pages.foldl (fun acc page => acc ++ joinSpace page ++ ['\n', '\n']) []

/-- Lines 69-107: the whole normalization pipeline of extractTextFromPDF,
taking the per-page fragment lists (the PDF decoding that produces them is
the external collaborator) to the cleaned text: assembly, step 1 with trim,
letter-run joining, whitespace collapsing, hyphenation repair, and the
repeated-line filter. -/
def extractTextFromPDF (pages : List (List (List Char))) : List Char :=
  removeRepeatedLines (dehyphenate (collapseWs (joinRuns (trimList (collapseNl (assemble pages))))))

/-- String-level wrapper of the full pipeline. -/
def extractTextFromPDFS (pages : List (List String)) : String :=
  String.mk (extractTextFromPDF (pages.map (fun p => p.map String.data)))

/-- String-level wrapper of removeRepeatedLines. -/
def removeRepeatedLinesS (text : String) : String := String.mk (removeRepeatedLines text.data)

/-- String-level wrapper of the hyphenation-repair stage (lines 100-102). -/
def dehyphenateS (text : String) : String := String.mk (dehyphenate text.data)

/-- String-level wrapper of the letter-run joining stage (lines 90-93). -/
def joinRunsS (text : String) : String := String.mk (joinRuns text.data)

/-- String-level wrapper of step 1 (line 86): blank-line collapsing plus trim. -/
def collapseNlTrimS (text : String) : String := String.mk (trimList (collapseNl text.data))

/-- String-level wrapper of step 3 (line 96): whitespace-run collapsing. -/
def collapseWsS (text : String) : String := String.mk (collapseWs text.data)

/-- String-level wrapper of String.trim. -/
def trimS (text : String) : String := String.mk (trimList text.data)

/-- Number of occurrences of a line in a list of lines. -/
def countOcc : List (List Char) → List Char → Nat
  | [], _ => 0
  | y :: ys, x => (if y = x then 1 else 0) + countOcc ys x

/-- Recursive form of the consecutive-duplicate collapsing loop, carrying the
last pushed line. -/
def dedupGo (p : List Char) : List (List Char) → List (List Char)
  | [] => []
  | y :: ys => if y = p then dedupGo p ys else y :: dedupGo y ys

/-- Recursive form of lines 44-49, proved equal to `dedupedLines` below. -/
def dedupRec : List (List Char) → List (List Char)
  | [] => []
  | x :: xs => x :: dedupGo x xs

-- ====================================================================
-- Helper lemmas
-- ====================================================================

theorem getOwn_updateOwn_self (m : List (List Char × JSVal)) (k : List Char) (v : JSVal) :
    getOwn (updateOwn m k v) k = some v := by
  induction m with
  | nil => simp [updateOwn, getOwn]
  | cons p rest ih =>
    obtain ⟨k0, v0⟩ := p
    by_cases h : k0 = k <;> simp [updateOwn, getOwn, h, ih]

theorem getOwn_updateOwn_ne (m : List (List Char × JSVal)) {k q : List Char}
    (h : k ≠ q) (v : JSVal) : getOwn (updateOwn m k v) q = getOwn m q := by
  induction m with
  | nil => simp [updateOwn, getOwn, h]
  | cons p rest ih =>
    obtain ⟨k0, v0⟩ := p
    by_cases h0 : k0 = k
    · subst h0
      simp [updateOwn, getOwn, h]
    · simp [updateOwn, getOwn, h0, ih]

theorem getOwn_setOwn_ne (m : List (List Char × JSVal)) {k q : List Char}
    (h : k ≠ q) (v : JSVal) : getOwn (setOwn m k v) q = getOwn m q := by
  unfold setOwn
  by_cases hp : k = "__proto__".data
  · simp [hp]
  · simp [hp, getOwn_updateOwn_ne m h v]

theorem getOwn_bump_ne (m : List (List Char × JSVal)) {k q : List Char} (h : k ≠ q) :
    getOwn (bump m k) q = getOwn m q := by
  unfold bump
  cases hw : getOwn m k with
  | none =>
    by_cases hproto : isProtoKey k = true <;> simp [hproto, getOwn_setOwn_ne m h]
  | some v => cases v <;> simp [getOwn_setOwn_ne m h]

/-- "__proto__" is a prototype key (so is every other entry of protoKeys). -/
theorem isProtoKey_proto : isProtoKey ("__proto__".data) = true := by decide

/-- For a key that is not an Object.prototype property name, the table entry
after processing a line list holds exactly the starting count plus the
number of occurrences of the key (an absent entry counting as zero and
staying absent only when the key never occurs). -/
theorem foldl_bump_count {k : List Char} (hk : isProtoKey k = false)
    (ls : List (List Char)) :
    ∀ (m : List (List Char × JSVal)) (c : Nat),
      ((getOwn m k = none ∧ c = 0) ∨ getOwn m k = some (JSVal.num c)) →
      ((getOwn (List.foldl bump m ls) k = none ∧ c + countOcc ls k = 0) ∨
        getOwn (List.foldl bump m ls) k = some (JSVal.num (c + countOcc ls k))) := by
  induction ls with
  | nil =>
    intro m c h
    simpa [countOcc] using h
  | cons y ys ih =>
    intro m c h
    by_cases hyk : y = k
    · subst hyk
      have hpne : y ≠ "__proto__".data := by
        intro he
        rw [he, isProtoKey_proto] at hk
        exact Bool.noConfusion hk
      have hbump : getOwn (bump m y) y = some (JSVal.num (c + 1)) := by
        rcases h with ⟨hnone, hc⟩ | hnum
        · subst hc
          simp [bump, hnone, hk, setOwn, hpne, getOwn_updateOwn_self]
        · simp [bump, hnum, setOwn, hpne, getOwn_updateOwn_self]
      have hrec := ih (bump m y) (c + 1) (Or.inr hbump)
      have hcnt : countOcc (y :: ys) y = 1 + countOcc ys y := by simp [countOcc]
      simp only [List.foldl_cons, hcnt]
      have harith : c + (1 + countOcc ys y) = c + 1 + countOcc ys y := by omega
      rw [harith]
      exact hrec
    · have hbump : getOwn (bump m y) k = getOwn m k := getOwn_bump_ne m hyk
      have hrec := ih (bump m y) c (by rw [hbump]; exact h)
      have hcnt : countOcc (y :: ys) k = countOcc ys k := by simp [countOcc, hyk]
      simp only [List.foldl_cons, hcnt]
      exact hrec

/-- For a non-prototype key, the code's `frequency[line] > 2` test computes
exactly "occurrence count greater than 2". -/
theorem freqGt2_frequency_nonproto {k : List Char} (hk : isProtoKey k = false)
    (ls : List (List Char)) :
    freqGt2 (frequency ls) k = decide (2 < countOcc ls k) := by
  have h := foldl_bump_count hk ls [] 0 (Or.inl ⟨rfl, rfl⟩)
  unfold frequency
  rcases h with ⟨h1, h2⟩ | h1
  · simp only [Nat.zero_add] at h2
    simp [freqGt2, h1, h2]
  · simp only [Nat.zero_add] at h1
    simp [freqGt2, h1]

/-- For an Object.prototype key the table entry is never numeric: the first
bump stores the concatenation string (or, for "__proto__", is swallowed),
and later bumps keep it a string. -/
theorem getOwn_foldl_bump_proto {k : List Char} (hk : isProtoKey k = true)
    (ls : List (List Char)) :
    ∀ m : List (List Char × JSVal),
      (getOwn m k = none ∨ getOwn m k = some JSVal.str) →
      (getOwn (List.foldl bump m ls) k = none ∨
        getOwn (List.foldl bump m ls) k = some JSVal.str) := by
  induction ls with
  | nil => intro m h; exact h
  | cons y ys ih =>
    intro m h
    simp only [List.foldl_cons]
    apply ih
    by_cases hyk : y = k
    · subst hyk
      by_cases hpp : y = "__proto__".data
      · subst hpp
        have hsame : getOwn (bump m ("__proto__".data)) ("__proto__".data)
            = getOwn m ("__proto__".data) := by
          rcases h with h | h <;> simp [bump, h, hk, setOwn]
        rw [hsame]
        exact h
      · rcases h with h | h
        · exact Or.inr (by simp [bump, h, hk, setOwn, hpp, getOwn_updateOwn_self])
        · exact Or.inr (by simp [bump, h, setOwn, hpp, getOwn_updateOwn_self])
    · rw [getOwn_bump_ne m hyk]
      exact h

/-- For an Object.prototype key the code's `frequency[line] > 2` test is
false no matter how often the line occurs (NaN comparison). -/
theorem freqGt2_frequency_proto {k : List Char} (hk : isProtoKey k = true)
    (ls : List (List Char)) :
    freqGt2 (frequency ls) k = false := by
  have h := getOwn_foldl_bump_proto hk ls [] (Or.inl rfl)
  unfold frequency
  rcases h with h | h <;> simp [freqGt2, h]

/-- The `frequency[line] > 2` test of line 59 holds exactly when the line is
not an Object.prototype property name and occurs more than twice in the
pre-deduplication line list. -/
theorem freqGt2_frequency (ls : List (List Char)) (k : List Char) :
    freqGt2 (frequency ls) k = true ↔ (isProtoKey k = false ∧ 2 < countOcc ls k) := by
  cases hk : isProtoKey k
  · rw [freqGt2_frequency_nonproto hk]
    simp
  · rw [freqGt2_frequency_proto hk]
    simp

theorem countOcc_filter_of_true {p : List Char → Bool} {x : List Char}
    (ls : List (List Char)) (h : p x = true) :
    countOcc (ls.filter p) x = countOcc ls x := by
  induction ls with
  | nil => rfl
  | cons y ys ih =>
    by_cases hyx : y = x
    · subst hyx; simp [List.filter_cons, h, countOcc, ih]
    · by_cases hp : p y = true <;> simp [List.filter_cons, hp, countOcc, hyx, ih]

theorem foldl_dedupStep (xs : List (List Char)) :
    ∀ (init : List (List Char)) (p : List Char),
      List.foldl dedupStep (init ++ [p]) xs = init ++ [p] ++ dedupGo p xs := by
  induction xs with
  | nil => intro init p; simp [dedupGo]
  | cons y ys ih =>
    intro init p
    by_cases h : y = p
    · subst h
      simp [List.foldl_cons, dedupStep, List.getLast?_concat, dedupGo, ih]
    · have hne : ¬((init ++ [p]).getLast? = some y) := by
        simp [List.getLast?_concat]
        exact fun hh => h hh.symm
      simp only [List.foldl_cons, dedupStep, if_neg hne]
      have : init ++ [p] ++ [y] = (init ++ [p]) ++ [y] := by simp
      rw [this, ih (init ++ [p]) y]
      simp [dedupGo, h, List.append_assoc]

/-- The accumulator loop of lines 44-49 equals its recursive form. -/
theorem dedupedLines_eq (ls : List (List Char)) : dedupedLines ls = dedupRec ls := by
  cases ls with
  | nil => rfl
  | cons x xs =>
    have h0 : dedupStep [] x = [] ++ [x] := by simp [dedupStep]
    simp only [dedupedLines, List.foldl_cons, h0, dedupRec]
    rw [foldl_dedupStep xs [] x]
    simp

theorem mem_dedupGo {x : List Char} (ys : List (List Char)) :
    ∀ p, x ∈ dedupGo p ys → x ∈ ys := by
  induction ys with
  | nil => intro p h; simp [dedupGo] at h
  | cons y ys ih =>
    intro p h
    by_cases hyp : y = p
    · simp only [dedupGo, if_pos hyp] at h
      exact List.mem_cons_of_mem _ (ih p h)
    · simp only [dedupGo, if_neg hyp, List.mem_cons] at h
      rcases h with h | h
      · exact h ▸ List.mem_cons_self _ _
      · exact List.mem_cons_of_mem _ (ih y h)

theorem mem_dedupedLines {x : List Char} {ls : List (List Char)}
    (h : x ∈ dedupedLines ls) : x ∈ ls := by
  rw [dedupedLines_eq] at h
  cases ls with
  | nil => simp [dedupRec] at h
  | cons y ys =>
    simp only [dedupRec, List.mem_cons] at h
    rcases h with h | h
    · exact h ▸ List.mem_cons_self _ _
    · exact List.mem_cons_of_mem _ (mem_dedupGo ys y h)

theorem chain_dedupGo (ys : List (List Char)) :
    ∀ p, List.Chain' (fun a b => a ≠ b) (p :: dedupGo p ys) := by
  induction ys with
  | nil => intro p; simp [dedupGo]
  | cons y ys ih =>
    intro p
    by_cases hyp : y = p
    · simpa [dedupGo, hyp] using ih p
    · simp only [dedupGo, if_neg hyp]
      exact List.chain'_cons.2 ⟨fun h => hyp h.symm, ih y⟩

/-- The consecutive-duplicate collapsing loop never leaves two equal lines
adjacent. -/
theorem chain_dedupedLines (ls : List (List Char)) :
    List.Chain' (fun a b => a ≠ b) (dedupedLines ls) := by
  rw [dedupedLines_eq]
  cases ls with
  | nil => simp [dedupRec]
  | cons x xs => exact chain_dedupGo xs x

theorem length_rtrim_le (l : List Char) : (rtrim l).length ≤ l.length := by
  induction l with
  | nil => simp [rtrim]
  | cons c rest ih =>
    by_cases h : rtrim rest = [] ∧ isWs c = true
    · simp [rtrim, h]
    · simp only [rtrim, if_neg h, List.length_cons]
      omega

theorem rtrim_idem (l : List Char) : rtrim (rtrim l) = rtrim l := by
  induction l with
  | nil => rfl
  | cons c rest ih =>
    by_cases h : rtrim rest = [] ∧ isWs c = true
    · simp [rtrim, h]
    · have hcons : rtrim (c :: rest) = c :: rtrim rest := by
        rw [rtrim]; simp [h]
      rw [hcons, rtrim, ih]
      simp [h, hcons]

theorem dropWhile_head_not {c : Char} {t l : List Char}
    (h : l.dropWhile isWs = c :: t) : isWs c = false := by
  induction l with
  | nil => simp [List.dropWhile] at h
  | cons a rest ih =>
    by_cases ha : isWs a = true
    · rw [List.dropWhile_cons_of_pos ha] at h
      exact ih h
    · rw [List.dropWhile_cons_of_neg ha] at h
      cases h
      simpa using ha

theorem dropWhile_cons_false {c : Char} (t : List Char) (h : isWs c = false) :
    (c :: t).dropWhile isWs = c :: t :=
  List.dropWhile_cons_of_neg (by simp [h])

/-- String.trim is idempotent. -/
theorem trim_idem (l : List Char) : trimList (trimList l) = trimList l := by
  unfold trimList
  cases hdw : l.dropWhile isWs with
  | nil => simp [rtrim, List.dropWhile]
  | cons c t =>
    have hc : isWs c = false := dropWhile_head_not hdw
    cases hr : rtrim (c :: t) with
    | nil => simp [rtrim, List.dropWhile]
    | cons d u =>
      have hd : d = c := by
        rw [rtrim] at hr
        by_cases h : rtrim t = [] ∧ isWs c = true
        · simp [h] at hr
        · simp [h] at hr; exact hr.1.symm
      subst hd
      rw [dropWhile_cons_false u hc, ← hr, rtrim_idem]

theorem length_dropWhile_le (l : List Char) : (l.dropWhile isWs).length ≤ l.length := by
  induction l with
  | nil => simp
  | cons a rest ih =>
    by_cases ha : isWs a = true
    · rw [List.dropWhile_cons_of_pos ha]
      simp
      omega
    · rw [List.dropWhile_cons_of_neg ha]

theorem trimFix_dropWhile {l : List Char} (h : trimList l = l) :
    l.dropWhile isWs = l := by
  cases l with
  | nil => rfl
  | cons c t =>
    by_cases hc : isWs c = true
    · exfalso
      have h1 : (c :: t).dropWhile isWs = t.dropWhile isWs :=
        List.dropWhile_cons_of_pos hc
      have h2 : (trimList (c :: t)).length ≤ t.length := by
        unfold trimList
        rw [h1]
        calc (rtrim (t.dropWhile isWs)).length ≤ (t.dropWhile isWs).length :=
              length_rtrim_le _
          _ ≤ t.length := length_dropWhile_le t
      rw [h] at h2
      simp at h2
    · exact dropWhile_cons_false t (by simpa using hc)

theorem trimFix_rtrim {l : List Char} (h : trimList l = l) : rtrim l = l := by
  have := trimFix_dropWhile h
  unfold trimList at h
  rw [this] at h
  exact h

theorem trimFix_head {l : List Char} {c : Char} {t : List Char}
    (h : trimList l = l) (hl : l = c :: t) : isWs c = false := by
  subst hl
  have := trimFix_dropWhile h
  by_cases hc : isWs c = true
  · rw [List.dropWhile_cons_of_pos hc] at this
    have h2 := length_dropWhile_le t
    rw [this] at h2
    simp at h2
  · simpa using hc

theorem rtrim_append (l : List Char) :
    ∀ m, rtrim m ≠ [] → rtrim (l ++ m) = l ++ rtrim m := by
  induction l with
  | nil => intro m _; rfl
  | cons c rest ih =>
    intro m hm
    have h1 : rtrim (rest ++ m) = rest ++ rtrim m := ih m hm
    have h2 : rest ++ rtrim m ≠ [] := by
      intro hh
      exact hm (List.append_eq_nil.1 hh).2
    rw [List.cons_append, rtrim, h1]
    simp [h2]

theorem joinNl_ne_nil {ls : List (List Char)} (h : ∀ x ∈ ls, x ≠ [])
    (hne : ls ≠ []) : joinNl ls ≠ [] := by
  match ls with
  | [] => exact absurd rfl hne
  | [l] => exact h l (List.mem_cons_self _ _)
  | l :: y :: ys =>
    show l ++ '\n' :: joinNl (y :: ys) ≠ []
    intro hh
    have := (List.append_eq_nil.1 hh).2
    simp at this

/-- Joining nonempty trim-fixed lines with newlines yields a trim-fixed
string (its first and last characters are not whitespace). -/
theorem trim_joinNl (ls : List (List Char))
    (h : ∀ x ∈ ls, x ≠ [] ∧ trimList x = x) :
    trimList (joinNl ls) = joinNl ls := by
  match ls with
  | [] => rfl
  | [l] => exact (h l (List.mem_cons_self _ _)).2
  | l :: y :: ys =>
    have hl := h l (List.mem_cons_self _ _)
    have hrest : ∀ x ∈ y :: ys, x ≠ [] ∧ trimList x = x :=
      fun x hx => h x (List.mem_cons_of_mem _ hx)
    have ihJ : trimList (joinNl (y :: ys)) = joinNl (y :: ys) :=
      trim_joinNl (y :: ys) hrest
    have hJne : joinNl (y :: ys) ≠ [] :=
      joinNl_ne_nil (fun x hx => (hrest x hx).1) (by simp)
    obtain ⟨c, t, hct⟩ : ∃ c t, l = c :: t := by
      cases l with
      | nil => exact absurd rfl hl.1
      | cons c t => exact ⟨c, t, rfl⟩
    have hc : isWs c = false := trimFix_head hl.2 hct
    have hrJ : rtrim (joinNl (y :: ys)) = joinNl (y :: ys) := trimFix_rtrim ihJ
    show trimList (l ++ '\n' :: joinNl (y :: ys)) = l ++ '\n' :: joinNl (y :: ys)
    have hnl : rtrim ('\n' :: joinNl (y :: ys)) = '\n' :: joinNl (y :: ys) := by
      rw [rtrim, hrJ]
      simp [hJne]
    unfold trimList
    rw [hct, List.cons_append, dropWhile_cons_false _ hc, ← List.cons_append, ← hct,
      rtrim_append l _ (by rw [hnl]; simp)]
    rw [hnl]

/-- Every line kept by removeRepeatedLines came from the trimmed nonempty
line list, hence is itself nonempty and trim-fixed. -/
theorem mem_filteredLines_props {t : List Char} {l : List Char}
    (h : l ∈ filteredLines t) : l ≠ [] ∧ trimList l = l := by
  have h1 : l ∈ dedupedLines (originalLines t) := (List.mem_filter.1 h).1
  have h2 : l ∈ originalLines t := mem_dedupedLines h1
  have h3 := List.mem_filter.1 h2
  have h4 : l ≠ [] := of_decide_eq_true h3.2
  obtain ⟨s, _, hs⟩ := List.mem_map.1 h3.1
  exact ⟨h4, hs ▸ trim_idem s⟩

/-- With no whole pattern `(\w)-\s+(\w)` present, the same-line hyphen rule
rewrites nothing. -/
theorem dehyphInlineGo_id (fuel : Nat) :
    ∀ l : List Char, l.length ≤ fuel → hasWHWW l = false →
      dehyphInlineGo fuel l = l := by
  induction fuel with
  | zero => intro l _ _; rfl
  | succ n ih =>
    intro l hlen hpat
    match l with
    | [] => rfl
    | [c] => rfl
    | a :: b :: rest =>
      have hlen2 : (b :: rest).length ≤ n := by simp at hlen ⊢; omega
      by_cases hab : b = '-' ∧ isWordChar a = true
      · have hsome : (wsWordMatch rest).isSome = false := by
          by_contra hx
          have hx2 : (wsWordMatch rest).isSome = true := by
            cases hs : (wsWordMatch rest).isSome
            · exact absurd hs hx
            · rfl
          rw [hasWHWW, if_pos ⟨hab.1, hab.2, hx2⟩] at hpat
          exact Bool.noConfusion hpat
        have hnone : wsWordMatch rest = none := by
          cases hw : wsWordMatch rest
          · rfl
          · rw [hw] at hsome; simp at hsome
        have hrest : hasWHWW (b :: rest) = false := by
          rw [hasWHWW] at hpat
          rwa [if_neg (by simp [hsome])] at hpat
        rw [dehyphInlineGo, if_pos hab, hnone]
        rw [ih (b :: rest) hlen2 hrest]
      · have hrest : hasWHWW (b :: rest) = false := by
          rw [hasWHWW] at hpat
          rwa [if_neg (by
            intro hx
            exact hab ⟨hx.1, hx.2.1⟩)] at hpat
        rw [dehyphInlineGo, if_neg hab]
        rw [ih (b :: rest) hlen2 hrest]

-- ====================================================================
-- Claim theorems
-- ====================================================================

/-- Claim C1 counterexample.  The claim states that an input with 4 blank
lines between two paragraphs yields exactly one blank line between them and
that the double-newline paragraph breaks are preserved rather than flattened
into single spaces.  On the code, the input "aa\n\n\n\n\nbb" (four blank
lines between the paragraphs "aa" and "bb") produces the output "aa bb":
step 3 flattens the "\n\n" left by step 1 into one space, and the output
contains no newline at all, hence no blank line. -/
theorem C1_counterexample :
    extractTextFromPDFS [["aa\n\n\n\n\nbb"]] = "aa bb" ∧
      '\n' ∉ (extractTextFromPDFS [["aa\n\n\n\n\nbb"]]).data := by
  exact ⟨rfl, by decide⟩

/-- Claim C1 amended.  Step 1 alone does collapse the run of 4 blank lines
to exactly one blank line ("aa\n\nbb"), but the intra-line whitespace
collapsing of step 3 then flattens that double newline into a single space,
so the final output separates the two paragraphs with one space and no blank
line survives. -/
theorem C1_blank_lines_amended :
    collapseNlTrimS "aa\n\n\n\n\nbb\n\n" = "aa\n\nbb" ∧
      collapseWsS "aa\n\nbb" = "aa bb" ∧
      extractTextFromPDFS [["aa\n\n\n\n\nbb"]] = "aa bb" :=
  ⟨rfl, rfl, rfl⟩

/-- Claim C2 counterexample.  The claim states that a line is removed from
the deduplicated sequence whenever its total frequency exceeds 2 and its
length is under 80.  The frequency object of line 52 is a plain JavaScript
object and inherits Object.prototype, so for the line "constructor" the
first read of `frequency[line]` yields a truthy inherited function and
`(… || 0) + 1` concatenates to a non-numeric string; the test
`frequency[line] > 2` then compares NaN and is false forever.  The document
"constructor\nconstructor\nconstructor" has that 11-character line at
frequency 3, yet removeRepeatedLines keeps it. -/
theorem C2_counterexample :
    countOcc (originalLines ("constructor\nconstructor\nconstructor".data))
        ("constructor".data) = 3 ∧
      utf16Len ("constructor".data) < 80 ∧
      removeRepeatedLinesS "constructor\nconstructor\nconstructor" = "constructor" :=
  ⟨by decide, by decide, rfl⟩

/-- Claim C2 amended.  The repeated-line filter removes a line from the
consecutive-deduplicated sequence exactly when the line is NOT a property
name of Object.prototype (such as "constructor", "toString", "valueOf",
"__proto__", …), its total occurrence count over the pre-deduplication
trimmed nonempty line list is greater than 2, and its length in UTF-16 code
units is under 80.  In particular a line of length at least 80 code units
keeps every post-dedup occurrence, and so does every Object.prototype
property-name line, no matter how often it repeats. -/
theorem C2_repeated_line_filter_amended (t : String) :
    filteredLines t.data
        = (dedupedLines (originalLines t.data)).filter
            (fun line =>
              decide (¬(isProtoKey line = false ∧
                2 < countOcc (originalLines t.data) line ∧ utf16Len line < 80))) ∧
      (∀ line : List Char, 80 ≤ utf16Len line →
        countOcc (filteredLines t.data) line
          = countOcc (dedupedLines (originalLines t.data)) line) ∧
      (∀ line : List Char, isProtoKey line = true →
        countOcc (filteredLines t.data) line
          = countOcc (dedupedLines (originalLines t.data)) line) := by
  refine ⟨?_, ?_, ?_⟩
  · unfold filteredLines
    apply List.filter_congr
    intro line _
    simp only [decide_eq_decide]
    rw [freqGt2_frequency, and_assoc]
  · intro line hlen
    unfold filteredLines
    apply countOcc_filter_of_true
    rw [decide_eq_true_eq]
    rintro ⟨-, hlt⟩
    omega
  · intro line hproto
    unfold filteredLines
    apply countOcc_filter_of_true
    rw [decide_eq_true_eq]
    rintro ⟨hgt, -⟩
    rw [freqGt2_frequency_proto hproto] at hgt
    exact Bool.noConfusion hgt

/-- Claim C2 witness: instantiations at an 80-code-unit line (kept because
of its length) and at the prototype-key line "toString" repeated three times
(kept despite frequency 3). -/
theorem C2_repeated_line_filter_amended_witness :
    (80 ≤ utf16Len (List.replicate 80 'a') ∧
      countOcc (filteredLines ("".data)) (List.replicate 80 'a')
        = countOcc (dedupedLines (originalLines ("".data))) (List.replicate 80 'a')) ∧
      (isProtoKey ("toString".data) = true ∧
        countOcc (filteredLines ("toString\ntoString\ntoString".data)) ("toString".data)
          = countOcc (dedupedLines (originalLines ("toString\ntoString\ntoString".data)))
              ("toString".data)) :=
  ⟨⟨by decide, (C2_repeated_line_filter_amended "").2.1 (List.replicate 80 'a') (by decide)⟩,
    ⟨by decide, (C2_repeated_line_filter_amended "toString\ntoString\ntoString").2.2
      ("toString".data) (by decide)⟩⟩

/-- Claim C3 counterexample.  The claim states that the hyphenation repairer
maps "verifica - ción" to "verificación"; the code leaves it unchanged,
because the same-line rule `(\w)-\s+(\w)` requires a word character
immediately before the hyphen and here a space precedes it.  The full
pipeline also returns it unchanged. -/
theorem C3_counterexample :
    dehyphenateS "verifica - ción" = "verifica - ción" ∧
      dehyphenateS "verifica - ción" ≠ "verificación" ∧
      extractTextFromPDFS [["verifica - ción"]] = "verifica - ción" :=
  ⟨rfl, by decide, rfl⟩

/-- Claim C3 amended.  The line-break form "verifica-\nción" is repaired to
"verificación" and "well-known" is left unchanged, as claimed; the same-line
broken form is repaired only when the hyphen directly follows the word
fragment, as in "verifica- ción" → "verificación", while "verifica - ción"
(whitespace on both sides of the hyphen) is left unchanged. -/
theorem C3_hyphenation_amended :
    dehyphenateS "verifica-\nción" = "verificación" ∧
      dehyphenateS "verifica- ción" = "verificación" ∧
      dehyphenateS "well-known" = "well-known" ∧
      dehyphenateS "verifica - ción" = "verifica - ción" :=
  ⟨rfl, rfl, rfl, rfl⟩

/-- Claim C4 counterexample.  The claim states that both hyphenation rules
fire only when a word character exists on each side of the hyphen.  The
end-of-line rule of the code (remove  hyphen `\s*\n\s*` ) has no such guard:
in "x -\ny" the hyphen is preceded by a space, yet it is removed together
with the line break, producing "x y" instead of leaving the text untouched. -/
theorem C4_counterexample :
    dehyphenateS "x -\ny" = "x y" ∧ dehyphenateS "x -\ny" ≠ "x -\ny" :=
  ⟨rfl, by decide⟩

/-- Claim C4 amended.  Only the same-line rule requires word characters:
whenever the text contains no occurrence of word-character, hyphen,
whitespace, word-character, the same-line rule rewrites nothing; the
end-of-line rule, by contrast, removes any hyphen followed (through optional
whitespace) by a line break regardless of its neighbours ("x -\ny" → "x y"),
and a hyphen with neither a following line break nor following whitespace,
as in "well-known", is left untouched by both rules. -/
theorem C4_hyphen_guard_amended :
    (∀ l : List Char, hasWHWW l = false → dehyphInline l = l) ∧
      dehyphenateS "x -\ny" = "x y" ∧
      dehyphenateS "well-known" = "well-known" :=
  ⟨fun l h => dehyphInlineGo_id l.length l (Nat.le_refl _) h, rfl, rfl⟩

/-- Claim C4 witness: "ab-cd" has no whitespace after its hyphen, so the
same-line rule leaves it unchanged. -/
theorem C4_hyphen_guard_amended_witness :
    hasWHWW ("ab-cd".data) = false ∧ dehyphInline ("ab-cd".data) = "ab-cd".data :=
  ⟨by decide, C4_hyphen_guard_amended.1 ("ab-cd".data) (by decide)⟩

/-- Claim C5.  The letter-run joiner fuses the run of single letters of
"H I S T O R I A S de ejemplo" into the token "HISTORIAS" and leaves the
words "de" and "ejemplo" unaltered, both at the stage itself and through the
full pipeline. -/
theorem C5_letter_run_joining :
    joinRunsS "H I S T O R I A S de ejemplo" = "HISTORIAS de ejemplo" ∧
      extractTextFromPDFS [["H I S T O R I A S de ejemplo"]] = "HISTORIAS de ejemplo" :=
  ⟨rfl, rfl⟩

/-- Claim C6 counterexample.  The claim states that the participating
single-letter tokens include lowercase ñ and that every run of two or more
of them is fused.  The character class of the code omits lowercase ñ, so the
run "a ñ o" is left unchanged instead of becoming "año". -/
theorem C6_counterexample :
    joinRunsS "a ñ o" = "a ñ o" ∧ joinRunsS "a ñ o" ≠ "año" :=
  ⟨rfl, by decide⟩

/-- Claim C6 amended.  The joiner's alphabet is the Latin letters together
with á é í ó ú and Á É Í Ó Ú Ñ; lowercase ñ is excluded.  A run of alphabet
letters is fused ("A Ñ O" → "AÑO", since uppercase Ñ is in the class), while
a run containing lowercase ñ is not fused across the ñ ("a ñ o" unchanged,
"n i ñ o" → "ni ñ o"). -/
theorem C6_letter_alphabet_amended :
    isClassLetter 'ñ' = false ∧
      isClassLetter 'Ñ' = true ∧
      isClassLetter 'á' = true ∧ isClassLetter 'é' = true ∧
      isClassLetter 'í' = true ∧ isClassLetter 'ó' = true ∧
      isClassLetter 'ú' = true ∧
      joinRunsS "a ñ o" = "a ñ o" ∧
      joinRunsS "n i ñ o" = "ni ñ o" ∧
      joinRunsS "A Ñ O" = "AÑO" := by
  refine ⟨by decide, by decide, by decide, by decide, by decide, by decide, by decide,
    rfl, rfl, rfl⟩

/-- Claim C7 counterexample.  The claim states that re-feeding any cleaned
output as a single-page input produces no further change.  The input
"qq a\nzz\nb qq\nzz\ncc\nzz\ndd" cleans to "qq a\nb qq\ncc\ndd" (the
repeated short line "zz" is removed), and re-feeding that cleaned text
changes it again: normalization is not idempotent. -/
theorem C7_counterexample :
    extractTextFromPDFS [["qq a\nzz\nb qq\nzz\ncc\nzz\ndd"]] = "qq a\nb qq\ncc\ndd" ∧
      extractTextFromPDFS [["qq a\nb qq\ncc\ndd"]] ≠ "qq a\nb qq\ncc\ndd" :=
  ⟨rfl, by decide⟩

/-- Claim C7 amended.  A second pass is not a no-op: on the cleaned text
"qq a\nb qq\ncc\ndd" the letter-run joiner fuses the single letters "a" and
"b" across the line break that the repeated-line filter created, giving
"qq ab qq\ncc\ndd"; that text is then a fixed point of the pipeline (a third
pass changes nothing). -/
theorem C7_idempotence_amended :
    extractTextFromPDFS [["qq a\nb qq\ncc\ndd"]] = "qq ab qq\ncc\ndd" ∧
      extractTextFromPDFS [["qq ab qq\ncc\ndd"]] = "qq ab qq\ncc\ndd" :=
  ⟨rfl, rfl⟩

/-- Claim C8.  The consecutive-duplicate collapsing of the repeated-line
filter leaves no two equal lines adjacent, for every line list; and on the
concrete document "Title\nTitle\nBody" the output is "Title\nBody" even
though the total frequency of "Title" is only 2 (below the removal
threshold). -/
theorem C8_consecutive_dedup :
    (∀ ls : List (List Char), List.Chain' (fun a b => a ≠ b) (dedupedLines ls)) ∧
      removeRepeatedLinesS "Title\nTitle\nBody" = "Title\nBody" ∧
      countOcc (originalLines ("Title\nTitle\nBody".data)) ("Title".data) = 2 :=
  ⟨chain_dedupedLines, rfl, by decide⟩

/-- Claim C9.  Zero pages yield the empty output string (the pipeline is a
total function, so no error is possible); the empty assembled string equally
maps to the empty string. -/
theorem C9_empty_input :
    extractTextFromPDFS [] = "" ∧ removeRepeatedLinesS "" = "" :=
  ⟨rfl, rfl⟩

/-- Claim C10.  Every line of the final output is nonempty and carries no
leading or trailing whitespace (it is fixed by trim), the output is exactly
the newline-join of those lines, and consequently the whole output — of
removeRepeatedLines on any text and of the full pipeline on any page list —
is fixed by trim, i.e. has no leading or trailing whitespace. -/
theorem C10_output_lines_invariant (t : String) :
    (∀ l ∈ filteredLines t.data, l ≠ [] ∧ trimList l = l) ∧
      removeRepeatedLines t.data = joinNl (filteredLines t.data) ∧
      trimList (removeRepeatedLines t.data) = removeRepeatedLines t.data ∧
      ∀ pages : List (List (List Char)),
        trimList (extractTextFromPDF pages) = extractTextFromPDF pages := by
  refine ⟨fun l hl => mem_filteredLines_props hl, rfl, ?_, ?_⟩
  · exact trim_joinNl (filteredLines t.data) (fun l hl => mem_filteredLines_props hl)
  · intro pages
    exact trim_joinNl (filteredLines _) (fun l hl => mem_filteredLines_props hl)

/-- Claim C10 witness: instantiation at the document "ab\ncd" and its first
output line "ab". -/
theorem C10_output_lines_invariant_witness :
    ("ab".data ∈ filteredLines ("ab\ncd".data)) ∧
      ("ab".data ≠ ([] : List Char) ∧ trimList ("ab".data) = "ab".data) :=
  ⟨by decide, (C10_output_lines_invariant "ab\ncd").1 ("ab".data) (by decide)⟩

end PdfParsing
